import Mathlib

/-!
A shallow embedding of the background-execution core of the `speck` repository:

* `speck/core/task_manager.py` — task fingerprints (`get_task_key`), submission
  with deduplication (`TaskManager.add_task`), the per-queue worker loop body
  (`worker`), and the recurring-task scheduler loop body (`scheduler`);
* `speck/core/llm_service_manager.py` — the reference-counted inference-service
  supervisor (`start_server`, `stop_server`, `_check_idle_server`, `force_stop`)
  and the scoped-use wrapper `use_local_inference_service`;
* `speck/core/event_manager.py` — the WebSocket event bus (`broadcast`,
  `disconnect`).

Pure data is translated directly; the stateful Python methods become explicit
state-passing functions.  External effects (spawning an OS process, whether a
pid is alive, whether a WebSocket send succeeds, whether a task body raises)
are passed in as explicit parameters so that each code path of the source is
represented.
-/

namespace Speck

/-- A model of the Python values that appear as task arguments and
keyword-argument values: the repository's `add_task` / scheduler call sites
pass ints, strings, bools and `None` (the values must be picklable for
cross-process transport). -/
inductive PyVal : Type
  | pynone : PyVal
  | pyint : Int → PyVal
  | pystr : String → PyVal
  | pybool : Bool → PyVal
deriving DecidableEq, Repr

/-- The tuple that `get_task_key` pickles and hashes:
`(task.__module__, task.__name__, args, tuple(sorted(kwargs.items())))`. -/
structure TaskSig : Type where
  module : String
  fname : String
  args : List PyVal
  sortedKwargs : List (String × PyVal)
deriving DecidableEq, Repr

/-- Order on kwargs items used by Python's `sorted(kwargs.items())`: compare by
key.  (Python compares `(key, value)` tuples, but dict keys are distinct, so
the value tie-break never fires.) -/
def kwLE (a b : String × PyVal) : Prop := a.1 ≤ b.1

instance : DecidableRel kwLE := fun a b => inferInstanceAs (Decidable (a.1 ≤ b.1))

instance : IsTotal (String × PyVal) kwLE := ⟨fun a b => le_total a.1 b.1⟩

instance : IsTrans (String × PyVal) kwLE := ⟨fun _ _ _ h1 h2 => le_trans h1 h2⟩

/-- Strict by-key order, used to show the canonicalized kwargs list is unique. -/
def kwLT (a b : String × PyVal) : Prop := a.1 < b.1

instance : IsAntisymm (String × PyVal) kwLT :=
  ⟨fun _ _ h1 h2 => absurd h1 (lt_asymm h2)⟩

/-- Model of Python's `tuple(sorted(kwargs.items()))`. -/
def sortKwargs (kw : List (String × PyVal)) : List (String × PyVal) :=
  kw.insertionSort kwLE

/-- The 128-bit task fingerprint type: `hashlib.md5(...).hexdigest()` is a
128-bit digest (rendered as 32 hex characters). -/
abbrev TaskKey := Fin (2 ^ 128)

/-- Model of `get_task_key` (task_manager.py lines 27-38): build the tuple
`(task.__module__, task.__name__, args, tuple(sorted(kwargs.items())))` and
hash it.  The parameter `h` abstracts the composite
`md5 ∘ pickle.dumps` — a fixed deterministic 128-bit digest of the tuple
(`pickle.dumps` is injective on these tuples, `md5` is a pure function);
every theorem below holds for an arbitrary such digest function. -/
def get_task_key (h : TaskSig → TaskKey) (module fname : String)
    (args : List PyVal) (kwargs : List (String × PyVal)) : TaskKey :=
  h ⟨module, fname, args, sortKwargs kwargs⟩

/-- The identity of a Python callable, as used by the task manager
(`task.__module__` and `task.__name__`). -/
structure PyTask : Type where
  module : String
  fname : String
deriving DecidableEq, Repr

/-- An entry of a task queue: the `(task, args, kwargs)` triple that
`add_task` / the scheduler `put` on a `multiprocessing.Queue`. -/
abbrev QueueEntry := PyTask × List PyVal × List (String × PyVal)

/-- The task-manager state visible to `add_task`: the shared
`pending_tasks` dict (a set of fingerprints; the stored value is always
`True`) and the named `task_queues`. -/
structure TMState : Type where
  pending : List TaskKey
  queues : String → List QueueEntry

/-- Model of `TaskManager.add_task` (task_manager.py lines 168-181): compute
the fingerprint; if it is already pending, return with no change; otherwise
mark it pending and `put` the `(task, args, kwargs)` triple on the named
queue. -/
def add_task (h : TaskSig → TaskKey) (st : TMState) (task : PyTask)
    (queue_name : String) (args : List PyVal)
    (kwargs : List (String × PyVal)) : TMState :=
  let task_key := get_task_key h task.module task.fname args kwargs
  if task_key ∈ st.pending then st
  else
    { pending := task_key :: st.pending,
      queues := fun q =>
        if q = queue_name then st.queues q ++ [(task, args, kwargs)]
        else st.queues q }

/-- The worker-local state touched by one iteration of the `worker` loop body:
the shared `pending_tasks` dict, the worker's outbound `pipe_conn` (modelled as
the list of task names sent so far, in order) and the `last_task` cache key. -/
structure WorkerState : Type where
  pending : List TaskKey
  pipe : List String
  lastTask : Option String
deriving DecidableEq, Repr

/-- Model of one dequeued-task iteration of `worker` (task_manager.py lines
69-85), after `task_queue.get` returned `(task, args, kwargs)`.  `ok` tells
whether the call `task(*args, **kwargs)` returned normally (`true`) or raised
(`false`; the exception is caught and logged).  The body recomputes the
fingerprint, writes `last_task`, sends `task.__name__` on the pipe only after
a normal return (the `pipe_conn.send` sits inside the `try`, after the call),
and in the `finally` block deletes the fingerprint from `pending_tasks` if
present. -/
def workerStep (h : TaskSig → TaskKey) (task : PyTask) (args : List PyVal)
    (kwargs : List (String × PyVal)) (ok : Bool) (st : WorkerState) :
    WorkerState :=
  let task_key := get_task_key h task.module task.fname args kwargs
  { pending :=
      if task_key ∈ st.pending then st.pending.erase task_key else st.pending,
    pipe := if ok then st.pipe ++ [task.fname] else st.pipe,
    lastTask := some task.fname }

/-- A `RecurringSpec` as stored in `recurring_tasks`: the dotted callable id,
the interval in seconds, positional args and the keyword-args dict.  The
kwargs dict object is shared between scheduler ticks (it is the same Python
object every iteration), so it is part of the scheduler state. -/
structure SchedSpec : Type where
  name : String
  interval : Int
  args : List PyVal
  kwargs : List (String × PyVal)
deriving DecidableEq, Repr

/-- What the scheduler `put`s on a queue: it resolves the dotted name to the
callable and enqueues `(task, args, kwargs)`; we record the dotted name. -/
abbrev SchedItem := String × List PyVal × List (String × PyVal)

/-- First-match association-list lookup (Python dict keys are unique). -/
def lookupKw (k : String) : List (String × PyVal) → Option PyVal
  | [] => none
  | (k', v) :: rest => if k' = k then some v else lookupKw k rest

/-- Remove the first binding of `k` (the mutation done by `dict.pop`). -/
def eraseKw (k : String) : List (String × PyVal) → List (String × PyVal)
  | [] => []
  | (k', v) :: rest => if k' = k then rest else (k', v) :: eraseKw k rest

/-- Model of `kwargs.pop('queue_name', 'general')`: returns the queue name and
the kwargs dict as it is after the `pop` mutation.  (Call sites only ever
store a string under `'queue_name'`.) -/
def popQueueName (kw : List (String × PyVal)) : String × List (String × PyVal) :=
  match lookupKw "queue_name" kw with
  | some (PyVal.pystr q) => (q, eraseKw "queue_name" kw)
  | some _ => ("general", eraseKw "queue_name" kw)
  | none => ("general", kw)

/-- Model of Python's `"m.f".rsplit('.', 1)` used to resolve a dotted
callable id into `(module, function)`. -/
def rsplitDot (s : String) : String × String :=
  let parts := s.splitOn "."
  (String.intercalate "." parts.dropLast, parts.getLastD "")

/-- The fingerprint of a scheduler-enqueued item, as the worker will compute
it from the resolved callable's `__module__`/`__name__`. -/
def schedItemKey (h : TaskSig → TaskKey) (it : SchedItem) : TaskKey :=
  get_task_key h (rsplitDot it.1).1 (rsplitDot it.1).2 it.2.1 it.2.2

/-- The state threaded through the `scheduler` loop (task_manager.py lines
90-110): the recurring specs (whose kwargs dicts the loop mutates), the
`next_run_times` dict, the task queues, and — for reference —the shared
`pending_tasks` registry, which the scheduler body never touches. -/
structure SchedState : Type where
  specs : List SchedSpec
  nextRun : String → Int
  queues : String → List SchedItem
  pending : List TaskKey

/-- `next_run_times = \x7btask: time.time() + 5 for ...\x7d`: every spec's first
run time is startup time plus five seconds. -/
def initNextRun (t0 : Int) : String → Int := fun _ => t0 + 5

/-- The inner `for` loop of one scheduler tick, processing the spec list in
order against the evolving `next_run_times` and queues.  For each spec with
`current_time >= next_run_times[task_name]`: pop `queue_name` from its kwargs
(default `'general'`, and the pop mutates the stored dict), `put` the task on
that queue, and set `next_run_times[task_name] = current_time + interval`. -/
def tickSpecs (now : Int) : List SchedSpec → (String → Int) →
    (String → List SchedItem) →
    List SchedSpec × (String → Int) × (String → List SchedItem)
  | [], nr, qs => ([], nr, qs)
  | sp :: rest, nr, qs =>
    if nr sp.name ≤ now then
      let pq := popQueueName sp.kwargs
      let qs' : String → List SchedItem := fun q =>
        if q = pq.1 then qs q ++ [(sp.name, sp.args, pq.2)] else qs q
      let nr' : String → Int := fun n =>
        if n = sp.name then now + sp.interval else nr n
      let r := tickSpecs now rest nr' qs'
      ({ sp with kwargs := pq.2 } :: r.1, r.2.1, r.2.2)
    else
      let r := tickSpecs now rest nr qs
      (sp :: r.1, r.2.1, r.2.2)

/-- One tick of the `scheduler` loop at wall-clock time `now`. -/
def schedTick (now : Int) (st : SchedState) : SchedState :=
  let r := tickSpecs now st.specs st.nextRun st.queues
  { specs := r.1, nextRun := r.2.1, queues := r.2.2, pending := st.pending }

/-- The per-model-type `ServiceState` record kept in the shared cache under
`'llm_service_state'`: `pid`, `usage_count`, `shutdown_scheduled`, and the
`last_used_time` key, which is absent until the first shutdown is scheduled
(the code reads it with `.get("last_used_time", 0)`). -/
structure ModelState : Type where
  pid : Option Nat
  usage_count : Int
  shutdown_scheduled : Bool
  last_used_time : Option Int
deriving DecidableEq, Repr

/-- The initial per-model state installed by `_get_state`. -/
def initModelState : ModelState :=
  { pid := none, usage_count := 0, shutdown_scheduled := false,
    last_used_time := none }

/-- Result of `start_server`: the new state, the returned pid (`none` models
the `return None` on spawn failure), and whether a fresh child process was
spawned and retained. -/
structure StartResult : Type where
  state : ModelState
  ret : Option Nat
  spawnedNew : Bool
deriving DecidableEq, Repr

/-- Model of `LLMServiceManager.start_server` (llm_service_manager.py lines
113-134), for one model type, under the `'llm_service_lock'`.
`isRunning` is the environment's answer to `_is_process_running`;
`spawnResult` is the outcome of `_start_inference_process` (`some q`: a ready
child with pid `q`; `none`: spawn or readiness failed — in that case the
helper already terminated anything it spawned and the state dict is left
untouched). -/
def start_server (spawnResult : Option Nat) (isRunning : Nat → Bool)
    (s : ModelState) : StartResult :=
  let needSpawn :=
    match s.pid with
    | none => true
    | some p => !(isRunning p)
  if needSpawn then
    match spawnResult with
    | some q =>
      { state := { s with pid := some q, usage_count := 1,
                          shutdown_scheduled := false },
        ret := some q, spawnedNew := true }
    | none => { state := s, ret := none, spawnedNew := false }
  else
    { state := { s with usage_count := s.usage_count + 1,
                        shutdown_scheduled := false },
      ret := s.pid, spawnedNew := false }

/-- Model of `LLMServiceManager.stop_server` (lines 136-147) at wall-clock
time `now`: decrement `usage_count`; if it reached zero (or below, clamped to
zero) and no shutdown is scheduled yet, record `last_used_time`, set
`shutdown_scheduled` and start a `_check_idle_server` thread (the returned
`Bool` reports whether that delayed-shutdown thread was armed). -/
def stop_server (now : Int) (s : ModelState) : ModelState × Bool :=
  let uc := s.usage_count - 1
  if uc ≤ 0 then
    if s.shutdown_scheduled then
      ({ s with usage_count := 0 }, false)
    else
      ({ s with usage_count := 0, shutdown_scheduled := true,
                last_used_time := some now }, true)
  else
    ({ s with usage_count := uc }, false)

/-- Model of `LLMServiceManager._check_idle_server` (lines 149-168) at the
moment its lock body runs (wall-clock time `now`, five seconds after it was
armed): if the service is unused and idle for at least five seconds, signal
the recorded pid (returned as the second component; the pid field is cleared
even if the process was already gone) — and in every case clear
`shutdown_scheduled`. -/
def check_idle_server (now : Int) (s : ModelState) : ModelState × Option Nat :=
  let idle_time := now - (s.last_used_time.getD 0)
  if s.usage_count = 0 ∧ 5 ≤ idle_time then
    match s.pid with
    | some p => ({ s with pid := none, shutdown_scheduled := false }, some p)
    | none => ({ s with shutdown_scheduled := false }, none)
  else
    ({ s with shutdown_scheduled := false }, none)

/-- A termination action recorded by `force_stop` for one service: the pid
that received the graceful terminate signal, and whether the follow-up
`kill -9` was sent (it is sent exactly when the process is still alive after
the five-second grace period). -/
abbrev StopAction := Option (Nat × Bool)

/-- Model of the per-service body of `LLMServiceManager.force_stop` (lines
170-196), POSIX branch: if a pid is recorded, send terminate, wait five
seconds, send kill if still running (`aliveAfterGrace`), and in the `finally`
reset `pid`/`usage_count`/`shutdown_scheduled`; if no pid is recorded, the
record is left untouched. -/
def force_stop_one (aliveAfterGrace : Nat → Bool) (s : ModelState) :
    ModelState × StopAction :=
  match s.pid with
  | some p =>
    ({ s with pid := none, usage_count := 0, shutdown_scheduled := false },
      some (p, aliveAfterGrace p))
  | none => (s, none)

/-- The full `'llm_service_state'` value: one record per model type. -/
structure ServicesState : Type where
  embedding : ModelState
  completion : ModelState
deriving DecidableEq, Repr

/-- Model of `LLMServiceManager.force_stop`: apply the per-service body to
both model types under the lock. -/
def force_stop (aliveAfterGrace : Nat → Bool) (st : ServicesState) :
    ServicesState × StopAction × StopAction :=
  let e := force_stop_one aliveAfterGrace st.embedding
  let c := force_stop_one aliveAfterGrace st.completion
  ({ embedding := e.1, completion := c.1 }, e.2, c.2)

/-- Outcome of one call to the wrapper produced by
`use_local_inference_service(model_type)` around a callable `fn`. -/
structure WrapResult : Type where
  state : ModelState
  fnCalled : Bool
  raisedStartError : Bool
  fnRaised : Bool
deriving DecidableEq, Repr

/-- Model of the `wrapper` closure of `use_local_inference_service` (lines
215-234).  `shortCircuit` is `model_type == 'completion' and not
settings.use_local_completions`, in which case `fn` is called directly with
no supervisor interaction.  Otherwise: `start_server`; a falsy pid raises
`RuntimeError` before `fn` runs; else `fn` runs (normally iff `fnOk`) and the
`finally` block calls `stop_server` exactly once on both exit paths, after
which the result is returned or the exception propagates. -/
def use_local_inference_service (shortCircuit : Bool)
    (spawnResult : Option Nat) (isRunning : Nat → Bool) (now : Int)
    (fnOk : Bool) (s : ModelState) : WrapResult :=
  if shortCircuit then
    { state := s, fnCalled := true, raisedStartError := false,
      fnRaised := !fnOk }
  else
    let o := start_server spawnResult isRunning s
    match o.ret with
    | none =>
      { state := o.state, fnCalled := false, raisedStartError := true,
        fnRaised := false }
    | some _ =>
      { state := (stop_server now o.state).1, fnCalled := true,
        raisedStartError := false, fnRaised := !fnOk }

/-- The `EventManager` state: `active_connections` is a dict mapping each
connected websocket (modelled by a client id) to its heartbeat `asyncio.Task`
(modelled by a task id); we also record which heartbeat tasks have been
cancelled. -/
structure EMState : Type where
  active : List (Nat × Nat)
  canceled : List Nat
deriving DecidableEq, Repr

/-- First-match lookup in the connection dict (keys are unique: a websocket
appears at most once in `active_connections`). -/
def lookupConn (c : Nat) : List (Nat × Nat) → Option Nat
  | [] => none
  | (c', t) :: rest => if c' = c then some t else lookupConn c rest

/-- Remove the first entry for client `c` (the `dict.pop` mutation). -/
def eraseConn (c : Nat) : List (Nat × Nat) → List (Nat × Nat)
  | [] => []
  | (c', t) :: rest => if c' = c then rest else (c', t) :: eraseConn c rest

/-- Model of `EventManager.disconnect` (event_manager.py lines 15-19):
`pop` the websocket's heartbeat task from `active_connections` (with a `None`
default, so a missing client is a no-op) and cancel it if present. -/
def disconnect (st : EMState) (c : Nat) : EMState :=
  match lookupConn c st.active with
  | some t => { active := eraseConn c st.active, canceled := st.canceled ++ [t] }
  | none => st

/-- The loop of `EventManager.broadcast` over the snapshot
`self.active_connections.copy()`: attempt `send_json` to each client in
snapshot order (`send c = true` means the await returned; `false` means it
raised `WebSocketDisconnect`, which is caught and handled by calling
`disconnect` on the live dict).  The second component collects, in order, the
clients to whom the message was delivered. -/
def broadcastAux (send : Nat → Bool) :
    List (Nat × Nat) → EMState → List Nat → EMState × List Nat
  | [], st, delivered => (st, delivered)
  | (c, _) :: rest, st, delivered =>
    if send c then broadcastAux send rest st (delivered ++ [c])
    else broadcastAux send rest (disconnect st c) delivered

/-- Model of `EventManager.broadcast` (lines 21-26). -/
def broadcast (send : Nat → Bool) (st : EMState) : EMState × List Nat :=
  broadcastAux send st.active st []

/-! ### Helper digest functions used to instantiate the abstract
`md5 ∘ pickle.dumps` parameter on concrete inputs. -/

/-- A trivial concrete 128-bit digest (constant zero). -/
def hTest : TaskSig → TaskKey := fun _ => ⟨0, by norm_num⟩

/-- A concrete 128-bit digest that depends on the canonicalized kwargs. -/
def hLen : TaskSig → TaskKey :=
  fun sig => ⟨sig.sortedKwargs.length % 2 ^ 128, Nat.mod_lt _ (by norm_num)⟩

/-! ### C1 — submission deduplication in `TaskManager.add_task` -/

/-- C1: for every call to `add_task` with a task, positional args and named
args: if the task's fingerprint is already in the pending registry, the call
returns leaving the registry and every queue unchanged; if it is absent, the
call inserts the fingerprint into the registry and appends the task exactly
once to the named queue, leaving every other queue unchanged. -/
theorem add_task_dedup (h : TaskSig → TaskKey) (st : TMState) (task : PyTask)
    (queue_name : String) (args : List PyVal)
    (kwargs : List (String × PyVal)) :
    (get_task_key h task.module task.fname args kwargs ∈ st.pending →
      add_task h st task queue_name args kwargs = st) ∧
    (get_task_key h task.module task.fname args kwargs ∉ st.pending →
      (add_task h st task queue_name args kwargs).pending =
        get_task_key h task.module task.fname args kwargs :: st.pending ∧
      (add_task h st task queue_name args kwargs).queues queue_name =
        st.queues queue_name ++ [(task, args, kwargs)] ∧
      ∀ q, q ≠ queue_name →
        (add_task h st task queue_name args kwargs).queues q = st.queues q) := by
  constructor
  · intro hmem
    simp [add_task, hmem]
  · intro hmem
    refine ⟨?_, ?_, ?_⟩
    · simp [add_task, hmem]
    · simp [add_task, hmem]
    · intro q hq
      simp [add_task, hmem, hq]

/-- Witness for C1 at concrete inputs: an absent fingerprint is enqueued on
the named queue, and a present fingerprint makes the call a no-op. -/
theorem add_task_dedup_witness :
    (add_task hTest ⟨[], fun _ => []⟩ ⟨"emails.tasks", "sync_inbox"⟩
        "general" [] []).queues "general" =
      [(⟨"emails.tasks", "sync_inbox"⟩, [], [])] ∧
    add_task hTest ⟨[hTest ⟨"emails.tasks", "sync_inbox", [], []⟩], fun _ => []⟩
        ⟨"emails.tasks", "sync_inbox"⟩ "general" [] [] =
      ⟨[hTest ⟨"emails.tasks", "sync_inbox", [], []⟩], fun _ => []⟩ := by
  constructor
  · exact ((add_task_dedup hTest ⟨[], fun _ => []⟩ ⟨"emails.tasks", "sync_inbox"⟩
      "general" [] []).2 (by simp)).2.1
  · exact (add_task_dedup hTest
      ⟨[hTest ⟨"emails.tasks", "sync_inbox", [], []⟩], fun _ => []⟩
      ⟨"emails.tasks", "sync_inbox"⟩ "general" [] []).1
      (List.mem_singleton.mpr rfl)

/-! ### C10 — a dead recorded pid is replaced and its usage count discarded -/

/-- C10: if `start_server` finds a recorded pid whose process is no longer
running, it spawns a fresh service process and resets the record to
`usage_count = 1` with `shutdown_scheduled = false`, whatever `usage_count`
was recorded before. -/
theorem start_server_dead_pid (spawnResult : Option Nat)
    (isRunning : Nat → Bool) (s : ModelState) (p q : Nat)
    (hpid : s.pid = some p) (hdead : isRunning p = false)
    (hspawn : spawnResult = some q) :
    start_server spawnResult isRunning s =
      ⟨{ s with pid := some q, usage_count := 1, shutdown_scheduled := false },
        some q, true⟩ := by
  simp [start_server, hpid, hdead, hspawn]

/-- Witness for C10: a record with a dead pid and a stale `usage_count = 7`
is reset to a fresh pid with `usage_count = 1`. -/
theorem start_server_dead_pid_witness :
    start_server (some 5) (fun _ => false)
        ⟨some 3, 7, true, some 11⟩ =
      ⟨⟨some 5, 1, false, some 11⟩, some 5, true⟩ :=
  start_server_dead_pid (some 5) (fun _ => false) ⟨some 3, 7, true, some 11⟩
    3 5 rfl rfl rfl

/-! ### C4 — the supervisor's ServiceState invariants -/

/-- The spec's checkable `ServiceState` invariants: the usage count is never
negative, and a positive usage count excludes a scheduled shutdown.  (The
spec's third invariant — `pid` is non-null iff the supervisor believes the
service alive — is the statement that the `pid` field is exactly the
supervisor's aliveness record; it appears below as the coupling between each
operation's pid field and the process action it performed.) -/
def ServiceInv (s : ModelState) : Prop :=
  0 ≤ s.usage_count ∧ (0 < s.usage_count → s.shutdown_scheduled = false)

instance (s : ModelState) : Decidable (ServiceInv s) := by
  unfold ServiceInv; infer_instance

/-- C4: every supervisor operation — `start_server`, `stop_server`, the
idle-shutdown check and `force_stop` — preserves the `ServiceState`
invariants, and each operation's resulting `pid` field tracks exactly the
process it spawned or signalled: a failed start leaves the record untouched,
a successful start records the returned pid, the idle check clears the pid
precisely when it signals that pid, and `force_stop` leaves no pid
recorded. -/
theorem serviceInv_start_server (spawnResult : Option Nat)
    (isRunning : Nat → Bool) (s : ModelState) (hs : ServiceInv s) :
    ServiceInv (start_server spawnResult isRunning s).state := by
  obtain ⟨hnn, hpos⟩ := hs
  rcases hp : s.pid with _ | p
  · rcases spawnResult with _ | q
    · simpa [start_server, hp, ServiceInv] using ⟨hnn, hpos⟩
    · simp [start_server, hp, ServiceInv]
  · rcases hr : isRunning p with _ | _
    · rcases spawnResult with _ | q
      · simpa [start_server, hp, hr, ServiceInv] using ⟨hnn, hpos⟩
      · simp [start_server, hp, hr, ServiceInv]
    · simp [start_server, hp, hr, ServiceInv]
      omega

theorem serviceInv_stop_server (now : Int) (s : ModelState)
    (hs : ServiceInv s) : ServiceInv (stop_server now s).1 := by
  obtain ⟨hnn, hpos⟩ := hs
  unfold stop_server
  by_cases h1 : s.usage_count - 1 ≤ 0
  · by_cases h2 : s.shutdown_scheduled <;> simp [h1, h2, ServiceInv]
  · simp only [h1, ite_false, ServiceInv]
    exact ⟨by omega, fun _ => hpos (by omega)⟩

theorem serviceInv_check_idle (now : Int) (s : ModelState)
    (hs : ServiceInv s) : ServiceInv (check_idle_server now s).1 := by
  obtain ⟨hnn, hpos⟩ := hs
  unfold check_idle_server
  by_cases hc : s.usage_count = 0 ∧ 5 ≤ now - s.last_used_time.getD 0
  · rcases hp : s.pid with _ | p <;> simp [hc, hp, ServiceInv, hnn]
  · simp [hc, ServiceInv, hnn]

theorem serviceInv_force_stop_one (alive : Nat → Bool) (s : ModelState)
    (hs : ServiceInv s) : ServiceInv (force_stop_one alive s).1 := by
  obtain ⟨hnn, hpos⟩ := hs
  rcases hp : s.pid with _ | p
  · simpa [force_stop_one, hp, ServiceInv] using ⟨hnn, hpos⟩
  · simp [force_stop_one, hp, ServiceInv]

theorem start_server_pid_tracks (spawnResult : Option Nat)
    (isRunning : Nat → Bool) (s : ModelState) :
    ((start_server spawnResult isRunning s).ret = none →
      (start_server spawnResult isRunning s).state = s) ∧
    (∀ q, (start_server spawnResult isRunning s).ret = some q →
      (start_server spawnResult isRunning s).state.pid = some q) := by
  rcases hp : s.pid with _ | p
  · rcases spawnResult with _ | q <;> simp [start_server, hp]
  · rcases hr : isRunning p with _ | _
    · rcases spawnResult with _ | q <;> simp [start_server, hp, hr]
    · simp [start_server, hp, hr]

theorem check_idle_pid_tracks (now : Int) (s : ModelState) :
    ((check_idle_server now s).2 = none →
      (check_idle_server now s).1.pid = s.pid) ∧
    (∀ p, (check_idle_server now s).2 = some p →
      s.pid = some p ∧ (check_idle_server now s).1.pid = none) := by
  unfold check_idle_server
  by_cases hc : s.usage_count = 0 ∧ 5 ≤ now - s.last_used_time.getD 0
  · rcases hp : s.pid with _ | p <;> simp [hc, hp]
  · simp [hc]

/-- C4: every supervisor operation — `start_server`, `stop_server`, the
idle-shutdown check and `force_stop` — preserves the `ServiceState`
invariants, and each operation's resulting `pid` field tracks exactly the
process it spawned or signalled: a failed start leaves the record untouched,
a successful start records the returned pid, the idle check clears the pid
precisely when it signals that pid, and `force_stop` leaves no pid
recorded. -/
theorem supervisor_preserves_invariants (spawnResult : Option Nat)
    (isRunning aliveAfterGrace : Nat → Bool) (now : Int)
    (s s₂ : ModelState) (hs : ServiceInv s) (hs₂ : ServiceInv s₂) :
    ServiceInv (start_server spawnResult isRunning s).state ∧
    ServiceInv (stop_server now s).1 ∧
    ServiceInv (check_idle_server now s).1 ∧
    ServiceInv (force_stop aliveAfterGrace ⟨s, s₂⟩).1.embedding ∧
    ServiceInv (force_stop aliveAfterGrace ⟨s, s₂⟩).1.completion ∧
    ((start_server spawnResult isRunning s).ret = none →
      (start_server spawnResult isRunning s).state = s) ∧
    (∀ q, (start_server spawnResult isRunning s).ret = some q →
      (start_server spawnResult isRunning s).state.pid = some q) ∧
    ((check_idle_server now s).2 = none →
      (check_idle_server now s).1.pid = s.pid) ∧
    (∀ p, (check_idle_server now s).2 = some p →
      s.pid = some p ∧ (check_idle_server now s).1.pid = none) ∧
    (force_stop aliveAfterGrace ⟨s, s₂⟩).1.embedding.pid = none ∧
    (force_stop aliveAfterGrace ⟨s, s₂⟩).1.completion.pid = none := by
  refine ⟨serviceInv_start_server _ _ _ hs, serviceInv_stop_server _ _ hs,
    serviceInv_check_idle _ _ hs, ?_, ?_,
    (start_server_pid_tracks _ _ _).1, (start_server_pid_tracks _ _ _).2,
    (check_idle_pid_tracks _ _).1, (check_idle_pid_tracks _ _).2, ?_, ?_⟩
  · exact serviceInv_force_stop_one aliveAfterGrace s hs
  · exact serviceInv_force_stop_one aliveAfterGrace s₂ hs₂
  · show (force_stop_one aliveAfterGrace s).1.pid = none
    rcases hp : s.pid with _ | p <;> simp [force_stop_one, hp]
  · show (force_stop_one aliveAfterGrace s₂).1.pid = none
    rcases hp : s₂.pid with _ | p <;> simp [force_stop_one, hp]

/-- Witness for C4 at a concrete invariant-satisfying pair of records. -/
theorem supervisor_preserves_invariants_witness :
    ServiceInv (start_server (some 9) (fun _ => true)
      ⟨some 4, 2, false, none⟩).state ∧
    ServiceInv (stop_server 100 ⟨some 4, 2, false, none⟩).1 := by
  have h := supervisor_preserves_invariants (some 9) (fun _ => true)
    (fun _ => true) 100 ⟨some 4, 2, false, none⟩ ⟨none, 0, false, none⟩
    (by decide) (by decide)
  exact ⟨h.1, h.2.1⟩

/-! ### C5 — a re-acquire before the 5-second delay cancels the shutdown -/

/-- C5: when a release brings the usage count to zero, the shutdown is only
armed as a delayed check (`stop_server` signals nothing and leaves the pid in
place); a second acquire of the same service before the delay elapses cancels
the scheduled shutdown flag, spawns no new child and returns the same pid;
and when the armed check finally runs after the five-second delay it signals
nothing, so across the two uses exactly one child process ever existed and it
was never terminated. -/
theorem idle_shutdown_canceled_by_reacquire (p : Nat) (t0 t2 : Int)
    (spawnResult : Option Nat) (isRunning : Nat → Bool) (s : ModelState)
    (hpid : s.pid = some p) (huse : s.usage_count = 1)
    (hsched : s.shutdown_scheduled = false) (hrun : isRunning p = true)
    (ht : t0 + 5 ≤ t2) :
    (stop_server t0 s).2 = true ∧
    (stop_server t0 s).1.shutdown_scheduled = true ∧
    (stop_server t0 s).1.pid = some p ∧
    (stop_server t0 s).1.usage_count = 0 ∧
    (start_server spawnResult isRunning (stop_server t0 s).1).spawnedNew = false ∧
    (start_server spawnResult isRunning (stop_server t0 s).1).ret = some p ∧
    (start_server spawnResult isRunning (stop_server t0 s).1).state.pid = some p ∧
    (start_server spawnResult isRunning (stop_server t0 s).1).state.shutdown_scheduled = false ∧
    (start_server spawnResult isRunning (stop_server t0 s).1).state.usage_count = 1 ∧
    (check_idle_server t2
      (start_server spawnResult isRunning (stop_server t0 s).1).state).2 = none ∧
    (check_idle_server t2
      (start_server spawnResult isRunning (stop_server t0 s).1).state).1.pid = some p := by
  have hstop : stop_server t0 s =
      ({ s with usage_count := 0, shutdown_scheduled := true,
                last_used_time := some t0 }, true) := by
    unfold stop_server
    rw [huse, hsched]
    norm_num
  have hstart : start_server spawnResult isRunning (stop_server t0 s).1 =
      ⟨{ s with pid := s.pid, usage_count := 1, shutdown_scheduled := false,
                last_used_time := some t0 }, some p, false⟩ := by
    rw [hstop]
    simp [start_server, hpid, hrun]
  have hcheck : (check_idle_server t2
      (start_server spawnResult isRunning (stop_server t0 s).1).state) =
      ({ s with pid := s.pid, usage_count := 1, shutdown_scheduled := false,
                last_used_time := some t0 }, none) := by
    rw [hstart]
    simp [check_idle_server]
  refine ⟨by rw [hstop], by rw [hstop], by rw [hstop]; exact hpid, by rw [hstop],
    by rw [hstart], by rw [hstart], by rw [hstart]; exact hpid, by rw [hstart],
    by rw [hstart], by rw [hcheck], by rw [hcheck]; exact hpid⟩

/-- Witness for C5 with a concrete in-use service record and concrete times
(release at 100, check firing at 105). -/
theorem idle_shutdown_canceled_by_reacquire_witness :
    (stop_server 100 ⟨some 42, 1, false, none⟩).1.pid = some 42 ∧
    (start_server none (fun q => q = 42)
      (stop_server 100 ⟨some 42, 1, false, none⟩).1).spawnedNew = false ∧
    (check_idle_server 105
      (start_server none (fun q => q = 42)
        (stop_server 100 ⟨some 42, 1, false, none⟩).1).state).2 = none := by
  have h := idle_shutdown_canceled_by_reacquire 42 100 105 none
    (fun q => q = 42) ⟨some 42, 1, false, none⟩ rfl rfl rfl (by decide)
    (by norm_num)
  exact ⟨h.2.2.1, h.2.2.2.2.1, h.2.2.2.2.2.2.2.2.2.1⟩

/-! ### C6 — force_stop terminates both services and resets all state -/

/-- States reachable by the supervisor satisfy: a record with no pid is
already idle (its usage count is zero and no shutdown is scheduled). -/
def IdleConsistent (s : ModelState) : Prop :=
  s.pid = none → s.usage_count = 0 ∧ s.shutdown_scheduled = false

instance (s : ModelState) : Decidable (IdleConsistent s) := by
  unfold IdleConsistent; infer_instance

/-- A `ServiceState` record reset to idle. -/
def IsIdle (s : ModelState) : Prop :=
  s.pid = none ∧ s.usage_count = 0 ∧ s.shutdown_scheduled = false

instance (s : ModelState) : Decidable (IsIdle s) := by
  unfold IsIdle; infer_instance

/-- C6: `force_stop` terminates both services — each recorded live pid
receives a graceful terminate, followed by a kill exactly when the process is
still alive after the five-second grace period — and after it returns both
`ServiceState` records are idle (no pid, zero usage count, no scheduled
shutdown). -/
theorem force_stop_terminates_and_resets (aliveAfterGrace : Nat → Bool)
    (st : ServicesState) (he : IdleConsistent st.embedding)
    (hc : IdleConsistent st.completion) :
    IsIdle (force_stop aliveAfterGrace st).1.embedding ∧
    IsIdle (force_stop aliveAfterGrace st).1.completion ∧
    (force_stop aliveAfterGrace st).2.1 =
      st.embedding.pid.map (fun p => (p, aliveAfterGrace p)) ∧
    (force_stop aliveAfterGrace st).2.2 =
      st.completion.pid.map (fun p => (p, aliveAfterGrace p)) := by
  refine ⟨?_, ?_, ?_, ?_⟩
  · rcases hp : st.embedding.pid with _ | p
    · simpa [force_stop, force_stop_one, hp, IsIdle, hp] using he hp
    · simp [force_stop, force_stop_one, hp, IsIdle]
  · rcases hp : st.completion.pid with _ | p
    · simpa [force_stop, force_stop_one, hp, IsIdle, hp] using hc hp
    · simp [force_stop, force_stop_one, hp, IsIdle]
  · rcases hp : st.embedding.pid with _ | p <;>
      simp [force_stop, force_stop_one, hp]
  · rcases hp : st.completion.pid with _ | p <;>
      simp [force_stop, force_stop_one, hp]

/-- Witness for C6: one service running (pid 8, still alive after the grace
period, so it is killed), the other one idle. -/
theorem force_stop_terminates_and_resets_witness :
    IsIdle (force_stop (fun _ => true)
      ⟨⟨some 8, 2, false, none⟩, initModelState⟩).1.embedding ∧
    (force_stop (fun _ => true)
      ⟨⟨some 8, 2, false, none⟩, initModelState⟩).2.1 = some (8, true) := by
  have h := force_stop_terminates_and_resets (fun _ => true)
    ⟨⟨some 8, 2, false, none⟩, initModelState⟩ (by decide) (by decide)
  exact ⟨h.1, by rw [h.2.2.1]; rfl⟩

/-! ### C3 — scoped acquisition in the `use_local_inference_service` wrapper -/

/-- How `stop_server` changes the usage count on any record: one decrement,
clamped at zero, with the pid untouched. -/
theorem stop_server_usage (now : Int) (s : ModelState) :
    (stop_server now s).1.usage_count = max (s.usage_count - 1) 0 ∧
    (stop_server now s).1.pid = s.pid := by
  constructor
  · unfold stop_server
    by_cases h1 : s.usage_count - 1 ≤ 0
    · rw [max_eq_right h1]
      by_cases h2 : s.shutdown_scheduled <;> simp [h1, h2]
    · rw [max_eq_left (by omega : (0 : Int) ≤ s.usage_count - 1)]
      simp [h1]
  · unfold stop_server
    by_cases h1 : s.usage_count - 1 ≤ 0
    · by_cases h2 : s.shutdown_scheduled <;> simp [h1, h2]
    · simp [h1]

/-- The wrapper on the non-short-circuit path with a failed start: `fn` is
never entered and the record is handed back as `start_server` left it. -/
theorem use_local_fail_state (spawnResult : Option Nat)
    (isRunning : Nat → Bool) (now : Int) (fnOk : Bool) (s : ModelState)
    (hret : (start_server spawnResult isRunning s).ret = none) :
    use_local_inference_service false spawnResult isRunning now fnOk s =
      ⟨(start_server spawnResult isRunning s).state, false, true, false⟩ := by
  simp [use_local_inference_service, hret]

/-- The wrapper on the non-short-circuit path with a successful start: `fn`
runs and the `finally` applies `stop_server` once, on both of `fn`'s exit
paths. -/
theorem use_local_success_state (spawnResult : Option Nat)
    (isRunning : Nat → Bool) (now : Int) (fnOk : Bool) (s : ModelState)
    (q : Nat) (hret : (start_server spawnResult isRunning s).ret = some q) :
    use_local_inference_service false spawnResult isRunning now fnOk s =
      ⟨(stop_server now (start_server spawnResult isRunning s).state).1, true,
        false, !fnOk⟩ := by
  simp [use_local_inference_service, hret]

/-- C3 (amended): for every invocation of the wrapper other than the
disabled-local-completions short circuit — which calls `fn` directly and
leaves the refcount untouched — entry increments the service refcount when
the recorded process is alive and resets it to one when a process must be
freshly spawned (discarding any count recorded for a dead process); on every
exit path of `fn` (normal return or exception) the `finally` decrements the
refcount exactly once, clamped at zero, leaving the pid in place; and if the
service cannot be started the wrapper raises without invoking `fn` and with
the record unchanged. -/
theorem use_service_scoped_refcount (shortCircuit : Bool)
    (spawnResult : Option Nat) (isRunning : Nat → Bool) (now : Int)
    (fnOk : Bool) (s : ModelState) :
    (shortCircuit = true →
      use_local_inference_service shortCircuit spawnResult isRunning now fnOk s =
        ⟨s, true, false, !fnOk⟩) ∧
    (shortCircuit = false →
      ((use_local_inference_service shortCircuit spawnResult isRunning now fnOk
          s).raisedStartError = true →
        (use_local_inference_service shortCircuit spawnResult isRunning now fnOk
          s).fnCalled = false ∧
        (use_local_inference_service shortCircuit spawnResult isRunning now fnOk
          s).state = s) ∧
      ((use_local_inference_service shortCircuit spawnResult isRunning now fnOk
          s).raisedStartError = false →
        (use_local_inference_service shortCircuit spawnResult isRunning now fnOk
          s).fnCalled = true ∧
        (∀ p, s.pid = some p → isRunning p = true →
          (start_server spawnResult isRunning s).state.usage_count =
            s.usage_count + 1) ∧
        ((s.pid = none ∨ ∃ p, s.pid = some p ∧ isRunning p = false) →
          (start_server spawnResult isRunning s).state.usage_count = 1) ∧
        (use_local_inference_service shortCircuit spawnResult isRunning now fnOk
          s).state.usage_count =
          max ((start_server spawnResult isRunning s).state.usage_count - 1) 0 ∧
        (use_local_inference_service shortCircuit spawnResult isRunning now fnOk
          s).state.pid =
          (start_server spawnResult isRunning s).state.pid)) := by
  constructor
  · intro hsc
    simp [use_local_inference_service, hsc]
  · intro hsc
    subst hsc
    rcases hret : (start_server spawnResult isRunning s).ret with _ | q
    · rw [use_local_fail_state spawnResult isRunning now fnOk s hret]
      constructor
      · intro _
        exact ⟨rfl, (start_server_pid_tracks spawnResult isRunning s).1 hret⟩
      · intro habs
        cases habs
    · rw [use_local_success_state spawnResult isRunning now fnOk s q hret]
      constructor
      · intro habs
        cases habs
      · intro _
        refine ⟨rfl, ?_, ?_, (stop_server_usage now _).1, (stop_server_usage now _).2⟩
        · intro p hp hr
          simp [start_server, hp, hr]
        · intro hdead
          rcases hdead with hp | ⟨p, hp, hr⟩
          · rcases hs : spawnResult with _ | q'
            · rw [hs] at hret
              simp [start_server, hp] at hret
            · simp [start_server, hp]
          · rcases hs : spawnResult with _ | q'
            · rw [hs] at hret
              simp [start_server, hp, hr] at hret
            · simp [start_server, hp, hr]

/-- Counterexample to C3 as stated, on two concrete invocations:
(i) with `model_type == 'completion'` and local completions disabled the
wrapper invokes `fn` directly and never touches the refcount; (ii) a wrapper
entry that finds the recorded pid dead with an outstanding count of 2 does
not increment the count to 3 — it resets it to 1, and the exit decrement then
leaves 0, not the entry count.  Each refutes "on entry the service refcount
is incremented" (and (ii) the exit clause) for that invocation. -/
theorem use_service_refcount_cex :
    (use_local_inference_service true none (fun _ => false) 0 true
      initModelState).fnCalled = true ∧
    ¬ ((use_local_inference_service true none (fun _ => false) 0 true
      initModelState).state.usage_count = initModelState.usage_count + 1) ∧
    (use_local_inference_service false (some 9) (fun _ => false) 0 true
      ⟨some 4, 2, false, none⟩).fnCalled = true ∧
    ¬ ((start_server (some 9) (fun _ => false)
      ⟨some 4, 2, false, none⟩).state.usage_count = 2 + 1) ∧
    (start_server (some 9) (fun _ => false)
      ⟨some 4, 2, false, none⟩).state.usage_count = 1 ∧
    (use_local_inference_service false (some 9) (fun _ => false) 0 true
      ⟨some 4, 2, false, none⟩).state.usage_count = 0 := by
  decide

/-- Witness for the amended C3: a live recorded process (pid 4, count 2) is
incremented on entry and the exit decrement returns the count to 2; a failed
spawn raises without calling `fn`. -/
theorem use_service_scoped_refcount_witness :
    (use_local_inference_service false (some 9) (fun _ => true) 50 true
      ⟨some 4, 2, false, none⟩).state.usage_count = 2 ∧
    (use_local_inference_service false none (fun _ => false) 50 true
      initModelState).fnCalled = false := by
  have h1 := use_service_scoped_refcount false (some 9) (fun _ => true) 50
    true ⟨some 4, 2, false, none⟩
  have h2 := use_service_scoped_refcount false none (fun _ => false) 50
    true initModelState
  constructor
  · obtain ⟨-, hinc, -, hclamp, -⟩ := (h1.2 rfl).2 (by decide)
    rw [hclamp, hinc 4 rfl rfl]
    decide
  · exact ((h2.2 rfl).1 (by decide)).1

/-! ### C2 — the worker's execute-finally and the completion event -/

/-- C2 (amended): for every task a worker dequeues and executes, whether the
callable returns normally or raises, the `finally` block removes the task's
fingerprint from the pending registry (leaving all other fingerprints in
place), and a CompletionEvent carrying the callable's name is emitted on the
worker's outbound pipe exactly once if the callable returned normally and
not at all if it raised; other names' pipe counts are untouched and
`last_task` records the callable's name. -/
theorem worker_removes_fingerprint_and_reports (h : TaskSig → TaskKey)
    (task : PyTask) (args : List PyVal) (kwargs : List (String × PyVal))
    (ok : Bool) (st : WorkerState) (hnd : st.pending.Nodup) :
    get_task_key h task.module task.fname args kwargs ∉
      (workerStep h task args kwargs ok st).pending ∧
    (∀ k, k ≠ get_task_key h task.module task.fname args kwargs →
      (k ∈ (workerStep h task args kwargs ok st).pending ↔ k ∈ st.pending)) ∧
    (workerStep h task args kwargs ok st).pipe.count task.fname =
      st.pipe.count task.fname + (if ok then 1 else 0) ∧
    (∀ n, n ≠ task.fname →
      (workerStep h task args kwargs ok st).pipe.count n =
        st.pipe.count n) ∧
    (workerStep h task args kwargs ok st).lastTask = some task.fname := by
  refine ⟨?_, ?_, ?_, ?_, rfl⟩
  · by_cases hmem : get_task_key h task.module task.fname args kwargs ∈ st.pending
    · simpa [workerStep, hmem] using hnd.not_mem_erase
    · simpa [workerStep, hmem] using hmem
  · intro k hk
    by_cases hmem : get_task_key h task.module task.fname args kwargs ∈ st.pending
    · simpa [workerStep, hmem] using List.mem_erase_of_ne hk
    · simp [workerStep, hmem]
  · rcases ok with _ | _
    · simp [workerStep]
    · simp [workerStep, List.count_append, List.count_singleton']
  · intro n hn
    rcases ok with _ | _
    · simp [workerStep]
    · simp [workerStep, List.count_append, List.count_singleton', hn.symm]

/-- Counterexample to C2 as stated: a task that raises has its fingerprint
removed, but no CompletionEvent is emitted on the pipe (the `pipe_conn.send`
sits inside the `try`, after the callable), so "exactly one CompletionEvent
per executed task" fails for a raising task. -/
theorem worker_no_event_on_exception_cex :
    (workerStep hTest ⟨"emails.tasks", "process_inbox_thread"⟩ [] [] false
      ⟨[hTest ⟨"emails.tasks", "process_inbox_thread", [], []⟩], [],
        none⟩).pending = [] ∧
    ¬ ((workerStep hTest ⟨"emails.tasks", "process_inbox_thread"⟩ [] [] false
      ⟨[hTest ⟨"emails.tasks", "process_inbox_thread", [], []⟩], [],
        none⟩).pipe = ["process_inbox_thread"]) := by
  constructor
  · rfl
  · intro habs
    exact absurd (congrArg List.length habs) (by decide)

/-- Witness for the amended C2 at concrete inputs (a succeeding task and a
raising one). -/
theorem worker_removes_fingerprint_and_reports_witness :
    (workerStep hTest ⟨"emails.tasks", "sync_inbox"⟩ [] [] true
      ⟨[hTest ⟨"emails.tasks", "sync_inbox", [], []⟩], [], none⟩).pipe.count
        "sync_inbox" = 0 + (if true then 1 else 0) ∧
    hTest ⟨"emails.tasks", "sync_inbox", [], []⟩ ∉
      (workerStep hTest ⟨"emails.tasks", "sync_inbox"⟩ [] [] true
        ⟨[hTest ⟨"emails.tasks", "sync_inbox", [], []⟩], [], none⟩).pending := by
  have h := worker_removes_fingerprint_and_reports hTest
    ⟨"emails.tasks", "sync_inbox"⟩ [] [] true
    ⟨[hTest ⟨"emails.tasks", "sync_inbox", [], []⟩], [], none⟩
    (List.nodup_singleton _)
  exact ⟨h.2.2.1, h.1⟩

/-! ### C9 — broadcast over a snapshot, disconnecting failed clients -/

theorem eraseConn_cons_eq (c b : Nat) (tl : List (Nat × Nat)) :
    eraseConn c ((c, b) :: tl) = tl := by
  simp [eraseConn]

theorem eraseConn_cons_ne (c a b : Nat) (tl : List (Nat × Nat)) (h : a ≠ c) :
    eraseConn c ((a, b) :: tl) = (a, b) :: eraseConn c tl := by
  simp [eraseConn, h]

theorem broadcastAux_cons_true (send : Nat → Bool) (a b : Nat)
    (tl : List (Nat × Nat)) (st : EMState) (acc : List Nat)
    (hs : send a = true) :
    broadcastAux send ((a, b) :: tl) st acc =
      broadcastAux send tl st (acc ++ [a]) := by
  simp [broadcastAux, hs]

theorem broadcastAux_cons_false (send : Nat → Bool) (a b : Nat)
    (tl : List (Nat × Nat)) (st : EMState) (acc : List Nat)
    (hs : send a = false) :
    broadcastAux send ((a, b) :: tl) st acc =
      broadcastAux send tl (disconnect st a) acc := by
  simp [broadcastAux, hs]

theorem lookupConn_eq_some (c t : Nat) :
    ∀ l : List (Nat × Nat), (l.map Prod.fst).Nodup → (c, t) ∈ l →
      lookupConn c l = some t := by
  intro l
  induction l with
  | nil => intro _ hm; cases hm
  | cons hd tl ih =>
    obtain ⟨a, b⟩ := hd
    intro hnd hm
    obtain ⟨hhd, htl⟩ : (∀ x, (a, x) ∉ tl) ∧ (tl.map Prod.fst).Nodup := by
      simpa using hnd
    rcases List.mem_cons.mp hm with heq | hmem
    · obtain ⟨rfl, rfl⟩ : c = a ∧ t = b := by simpa using heq
      simp [lookupConn]
    · have hne : a ≠ c := fun habs => hhd t (by rw [habs]; exact hmem)
      simp only [lookupConn]
      rw [if_neg hne]
      exact ih htl hmem

theorem eraseConn_sublist (c : Nat) :
    ∀ l : List (Nat × Nat), (eraseConn c l).Sublist l := by
  intro l
  induction l with
  | nil => simp [eraseConn]
  | cons hd tl ih =>
    obtain ⟨a, b⟩ := hd
    by_cases hc : a = c
    · rw [hc, eraseConn_cons_eq]
      exact List.sublist_cons_self (c, b) tl
    · rw [eraseConn_cons_ne c a b tl hc]
      exact ih.cons₂ (a, b)

theorem mem_eraseConn_of_ne (c c' t' : Nat) (hne : c' ≠ c) :
    ∀ l : List (Nat × Nat), ((c', t') ∈ eraseConn c l ↔ (c', t') ∈ l) := by
  intro l
  induction l with
  | nil => simp [eraseConn]
  | cons hd tl ih =>
    obtain ⟨a, b⟩ := hd
    by_cases hc : a = c
    · rw [hc, eraseConn_cons_eq]
      constructor
      · exact fun hm => List.mem_cons_of_mem (c, b) hm
      · intro hm
        rcases List.mem_cons.mp hm with heq | hmem
        · obtain ⟨h1, -⟩ : c' = c ∧ t' = b := by simpa using heq
          exact absurd h1 hne
        · exact hmem
    · rw [eraseConn_cons_ne c a b tl hc]
      simp only [List.mem_cons]
      exact or_congr Iff.rfl ih

theorem not_mem_eraseConn (c : Nat) :
    ∀ l : List (Nat × Nat), (l.map Prod.fst).Nodup →
      ∀ t, (c, t) ∉ eraseConn c l := by
  intro l
  induction l with
  | nil => intro _ t; simp [eraseConn]
  | cons hd tl ih =>
    obtain ⟨a, b⟩ := hd
    intro hnd t
    obtain ⟨hhd, htl⟩ : (∀ x, (a, x) ∉ tl) ∧ (tl.map Prod.fst).Nodup := by
      simpa using hnd
    by_cases hc : a = c
    · rw [hc, eraseConn_cons_eq]
      intro hm
      exact hhd t (by rw [hc]; exact hm)
    · rw [eraseConn_cons_ne c a b tl hc]
      intro hm
      rcases List.mem_cons.mp hm with heq | hmem
      · obtain ⟨h1, -⟩ : c = a ∧ t = b := by simpa using heq
        exact hc h1.symm
      · exact ih htl t hmem

theorem disconnect_keeps_other (st : EMState) (c c' t' : Nat) (hne : c' ≠ c) :
    ((c', t') ∈ (disconnect st c).active ↔ (c', t') ∈ st.active) := by
  unfold disconnect
  rcases hl : lookupConn c st.active with _ | t
  · exact Iff.rfl
  · exact mem_eraseConn_of_ne c c' t' hne st.active

theorem disconnect_canceled_mono (st : EMState) (c t : Nat)
    (hm : t ∈ st.canceled) : t ∈ (disconnect st c).canceled := by
  unfold disconnect
  rcases hl : lookupConn c st.active with _ | t'
  · exact hm
  · exact List.mem_append_left _ hm

theorem disconnect_nodup (st : EMState) (c : Nat)
    (hnd : (st.active.map Prod.fst).Nodup) :
    ((disconnect st c).active.map Prod.fst).Nodup := by
  unfold disconnect
  rcases hl : lookupConn c st.active with _ | t
  · exact hnd
  · exact hnd.sublist ((eraseConn_sublist c st.active).map Prod.fst)

theorem disconnect_absent (st : EMState) (c c' : Nat)
    (habs : ∀ t, (c, t) ∉ st.active) :
    ∀ t, (c, t) ∉ (disconnect st c').active := by
  intro t hm
  unfold disconnect at hm
  rcases hl : lookupConn c' st.active with _ | t''
  · rw [hl] at hm
    exact habs t hm
  · rw [hl] at hm
    exact habs t (((eraseConn_sublist c' st.active).subset) hm)

theorem broadcastAux_absent (send : Nat → Bool) (c : Nat) :
    ∀ (ss : List (Nat × Nat)) (st : EMState) (acc : List Nat),
      (∀ t, (c, t) ∉ st.active) →
      ∀ t, (c, t) ∉ (broadcastAux send ss st acc).1.active := by
  intro ss
  induction ss with
  | nil => intro st acc habs t; exact habs t
  | cons hd tl ih =>
    obtain ⟨a, b⟩ := hd
    intro st acc habs t
    rcases hs : send a with _ | _
    · rw [broadcastAux_cons_false send a b tl st acc hs]
      exact ih (disconnect st a) acc (disconnect_absent st c a habs) t
    · rw [broadcastAux_cons_true send a b tl st acc hs]
      exact ih st (acc ++ [a]) habs t

theorem broadcastAux_canceled_mono (send : Nat → Bool) (t : Nat) :
    ∀ (ss : List (Nat × Nat)) (st : EMState) (acc : List Nat),
      t ∈ st.canceled → t ∈ (broadcastAux send ss st acc).1.canceled := by
  intro ss
  induction ss with
  | nil => intro st acc hm; exact hm
  | cons hd tl ih =>
    obtain ⟨a, b⟩ := hd
    intro st acc hm
    rcases hs : send a with _ | _
    · rw [broadcastAux_cons_false send a b tl st acc hs]
      exact ih (disconnect st a) acc (disconnect_canceled_mono st a t hm)
    · rw [broadcastAux_cons_true send a b tl st acc hs]
      exact ih st (acc ++ [a]) hm

theorem broadcastAux_delivered (send : Nat → Bool) :
    ∀ (ss : List (Nat × Nat)) (st : EMState) (acc : List Nat),
      (broadcastAux send ss st acc).2 =
        acc ++ (ss.map Prod.fst).filter (fun c => send c) := by
  intro ss
  induction ss with
  | nil => intro st acc; simp [broadcastAux]
  | cons hd tl ih =>
    obtain ⟨a, b⟩ := hd
    intro st acc
    rcases hs : send a with _ | _
    · rw [broadcastAux_cons_false send a b tl st acc hs, ih]
      simp [hs]
    · rw [broadcastAux_cons_true send a b tl st acc hs, ih]
      simp [hs]

theorem broadcastAux_fail (send : Nat → Bool) :
    ∀ (ss : List (Nat × Nat)) (st : EMState) (acc : List Nat),
      (ss.map Prod.fst).Nodup → (st.active.map Prod.fst).Nodup →
      (∀ p ∈ ss, p ∈ st.active) →
      ∀ c t, (c, t) ∈ ss → send c = false →
        (∀ t', (c, t') ∉ (broadcastAux send ss st acc).1.active) ∧
        t ∈ (broadcastAux send ss st acc).1.canceled := by
  intro ss
  induction ss with
  | nil => intro st acc _ _ _ c t hm; cases hm
  | cons hd tl ih =>
    obtain ⟨a, b⟩ := hd
    intro st acc hssnd hstnd hsub c t hm hsend
    obtain ⟨hhd, htl⟩ : (∀ x, (a, x) ∉ tl) ∧ (tl.map Prod.fst).Nodup := by
      simpa using hssnd
    rcases hs : send a with _ | _
    · -- the head client's send failed, so it is disconnected first
      rw [broadcastAux_cons_false send a b tl st acc hs]
      rcases List.mem_cons.mp hm with heq | hmem
      · -- the claimed client is the head client itself
        obtain ⟨rfl, rfl⟩ : c = a ∧ t = b := by simpa using heq
        have hmacts : (c, t) ∈ st.active :=
          hsub (c, t) (List.mem_cons_self (c, t) tl)
        have hlook : lookupConn c st.active = some t :=
          lookupConn_eq_some c t st.active hstnd hmacts
        have habsent : ∀ t', (c, t') ∉ (disconnect st c).active := by
          unfold disconnect
          rw [hlook]
          exact not_mem_eraseConn c st.active hstnd
        have hcanc : t ∈ (disconnect st c).canceled := by
          unfold disconnect
          rw [hlook]
          exact List.mem_append_right _ (List.mem_singleton.mpr rfl)
        exact ⟨broadcastAux_absent send c tl (disconnect st c) acc habsent,
          broadcastAux_canceled_mono send t tl (disconnect st c) acc hcanc⟩
      · -- the claimed client appears later in the snapshot
        have hsub' : ∀ p ∈ tl, p ∈ (disconnect st a).active := by
          intro p hp
          have hpne : p.1 ≠ a := by
            intro habs
            exact hhd p.2 (by rw [← habs]; exact hp)
          exact (disconnect_keeps_other st a p.1 p.2 hpne).mpr
            (hsub p (List.mem_cons_of_mem (a, b) hp))
        exact ih (disconnect st a) acc htl (disconnect_nodup st a hstnd)
          hsub' c t hmem hsend
    · -- the head client's send succeeded, so the state is unchanged
      rw [broadcastAux_cons_true send a b tl st acc hs]
      rcases List.mem_cons.mp hm with heq | hmem
      · exfalso
        obtain ⟨rfl, -⟩ : c = a ∧ t = b := by simpa using heq
        rw [hsend] at hs
        cases hs
      · exact ih st (acc ++ [a]) htl hstnd
          (fun p hp => hsub p (List.mem_cons_of_mem (a, b) hp)) c t hmem hsend

/-- C9: `broadcast` iterates a snapshot of the active client set, attempting
the send to each; every client whose send fails is disconnected — it is
removed from the active set and its heartbeat task is cancelled — and every
other client in the snapshot receives the message. -/
theorem broadcast_disconnects_failed_clients (send : Nat → Bool)
    (st : EMState) (hnd : (st.active.map Prod.fst).Nodup) :
    ∀ c t, (c, t) ∈ st.active →
      (send c = false →
        (∀ t', (c, t') ∉ (broadcast send st).1.active) ∧
        t ∈ (broadcast send st).1.canceled) ∧
      (send c = true → c ∈ (broadcast send st).2) := by
  intro c t hm
  constructor
  · intro hsend
    exact broadcastAux_fail send st.active st [] hnd hnd (fun p hp => hp)
      c t hm hsend
  · intro hsend
    unfold broadcast
    rw [broadcastAux_delivered send st.active st []]
    simp only [List.nil_append]
    refine List.mem_filter.mpr ⟨?_, by simpa using hsend⟩
    exact List.mem_map.mpr ⟨(c, t), hm, rfl⟩

/-- Witness for C9: two connected clients; client 2's transport is gone, so
the broadcast delivers to client 1, removes client 2 and cancels its
heartbeat task 20. -/
theorem broadcast_disconnects_failed_clients_witness :
    (20 ∈ (broadcast (fun c => c == 1) ⟨[(1, 10), (2, 20)], []⟩).1.canceled) ∧
    (1 ∈ (broadcast (fun c => c == 1) ⟨[(1, 10), (2, 20)], []⟩).2) := by
  have h := broadcast_disconnects_failed_clients (fun c => c == 1)
    ⟨[(1, 10), (2, 20)], []⟩ (by decide)
  exact ⟨((h 2 20 (by decide)).1 (by decide)).2, (h 1 10 (by decide)).2 (by decide)⟩

/-! ### C8 — the task fingerprint canonicalizes named-argument order -/

theorem sortKwargs_perm (kw : List (String × PyVal)) :
    List.Perm (sortKwargs kw) kw :=
  List.perm_insertionSort kwLE kw

theorem sortKwargs_sorted (kw : List (String × PyVal)) :
    List.Sorted kwLE (sortKwargs kw) :=
  List.sorted_insertionSort kwLE kw

theorem sorted_kwLT_of_nodup_keys (l : List (String × PyVal))
    (hs : List.Sorted kwLE l) (hnd : (l.map Prod.fst).Nodup) :
    List.Sorted kwLT l := by
  have hne : l.Pairwise (fun a b : String × PyVal => a.1 ≠ b.1) :=
    List.pairwise_map.mp hnd
  exact (hs.and hne).imp fun hab => lt_of_le_of_ne hab.1 hab.2

/-- Two kwargs dicts that are equal as mappings canonicalize to the same
sorted item list. -/
theorem sortKwargs_eq_of_perm (kw1 kw2 : List (String × PyVal))
    (hnd : (kw1.map Prod.fst).Nodup) (hperm : List.Perm kw1 kw2) :
    sortKwargs kw1 = sortKwargs kw2 := by
  have hp : List.Perm (sortKwargs kw1) (sortKwargs kw2) :=
    ((sortKwargs_perm kw1).trans hperm).trans (sortKwargs_perm kw2).symm
  have hnd1 : ((sortKwargs kw1).map Prod.fst).Nodup :=
    (((sortKwargs_perm kw1).map Prod.fst).nodup_iff).mpr hnd
  have hnd2 : ((sortKwargs kw2).map Prod.fst).Nodup :=
    ((hp.map Prod.fst).nodup_iff).mp hnd1
  exact List.eq_of_perm_of_sorted hp
    (sorted_kwLT_of_nodup_keys _ (sortKwargs_sorted kw1) hnd1)
    (sorted_kwLT_of_nodup_keys _ (sortKwargs_sorted kw2) hnd2)

/-- C8: the task fingerprint is a deterministic 128-bit digest of
`(callable-id, args, named-args)` (`TaskKey` is `Fin (2 ^ 128)` and
`get_task_key` is a pure function of the triple, so identical submissions
always fingerprint identically) that canonicalizes named-argument order: two
kwargs dicts with the same key-value bindings — item lists that are
permutations of each other with distinct keys — produce the same
fingerprint. -/
theorem get_task_key_canonical (h : TaskSig → TaskKey) (module fname : String)
    (args : List PyVal) (kw1 kw2 : List (String × PyVal))
    (hnd : (kw1.map Prod.fst).Nodup) (hperm : List.Perm kw1 kw2) :
    get_task_key h module fname args kw1 =
      get_task_key h module fname args kw2 := by
  unfold get_task_key
  rw [sortKwargs_eq_of_perm kw1 kw2 hnd hperm]

/-- Witness for C8: the kwargs dicts written `a=1, b=2` and `b=2, a=1` get
the same fingerprint, under a digest that depends on the kwargs. -/
theorem get_task_key_canonical_witness :
    get_task_key hLen "emails.tasks" "sync_inbox" []
        [("a", PyVal.pyint 1), ("b", PyVal.pyint 2)] =
      get_task_key hLen "emails.tasks" "sync_inbox" []
        [("b", PyVal.pyint 2), ("a", PyVal.pyint 1)] :=
  get_task_key_canonical hLen "emails.tasks" "sync_inbox" []
    [("a", PyVal.pyint 1), ("b", PyVal.pyint 2)]
    [("b", PyVal.pyint 2), ("a", PyVal.pyint 1)]
    (by decide) (List.Perm.swap ("b", PyVal.pyint 2) ("a", PyVal.pyint 1) [])

/-! ### C7 — the recurring-task scheduler tick -/

/-- The items a tick at time `now` fires onto queue `q`: one entry per due
spec whose popped queue name is `q`, in spec order. -/
def firedItems (now : Int) (nr : String → Int) (specs : List SchedSpec)
    (q : String) : List SchedItem :=
  (specs.filter fun sp =>
      decide (nr sp.name ≤ now) && decide ((popQueueName sp.kwargs).1 = q)).map
    fun sp => (sp.name, sp.args, (popQueueName sp.kwargs).2)

theorem firedItems_cons (now : Int) (nr : String → Int) (sp : SchedSpec)
    (rest : List SchedSpec) (q : String) :
    firedItems now nr (sp :: rest) q =
      (if nr sp.name ≤ now ∧ (popQueueName sp.kwargs).1 = q
        then [(sp.name, sp.args, (popQueueName sp.kwargs).2)] else []) ++
      firedItems now nr rest q := by
  unfold firedItems
  rw [List.filter_cons]
  by_cases hc : nr sp.name ≤ now ∧ (popQueueName sp.kwargs).1 = q
  · simp [hc.1, hc.2, hc]
  · rw [not_and_or] at hc
    rcases hc with hc | hc <;> simp [hc]

theorem firedItems_congr (now : Int) (q : String) :
    ∀ (specs : List SchedSpec) (nr1 nr2 : String → Int),
      (∀ sp ∈ specs, nr1 sp.name = nr2 sp.name) →
      firedItems now nr1 specs q = firedItems now nr2 specs q := by
  intro specs
  induction specs with
  | nil => intro nr1 nr2 _; rfl
  | cons sp rest ih =>
    intro nr1 nr2 hag
    have hsp := hag sp (List.mem_cons_self sp rest)
    rw [firedItems_cons, firedItems_cons, hsp,
      ih nr1 nr2 fun sp' hm => hag sp' (List.mem_cons_of_mem sp hm)]

theorem tickSpecs_nextRun_not_mem (now : Int) :
    ∀ (specs : List SchedSpec) (nr : String → Int)
      (qs : String → List SchedItem) (n : String),
      n ∉ specs.map SchedSpec.name →
      (tickSpecs now specs nr qs).2.1 n = nr n := by
  intro specs
  induction specs with
  | nil => intro nr qs n _; rfl
  | cons sp rest ih =>
    intro nr qs n hmem
    have h1 : n ≠ sp.name := fun habs => hmem (by simp [habs])
    have h2 : n ∉ rest.map SchedSpec.name := fun habs => hmem (by simp [habs])
    by_cases hdue : nr sp.name ≤ now
    · simp only [tickSpecs, if_pos hdue]
      rw [ih _ _ n h2]
      simp [h1]
    · simp only [tickSpecs, if_neg hdue]
      exact ih _ _ n h2

theorem tickSpecs_queues (now : Int) :
    ∀ (specs : List SchedSpec) (nr : String → Int)
      (qs : String → List SchedItem),
      (specs.map SchedSpec.name).Nodup →
      ∀ q, (tickSpecs now specs nr qs).2.2 q =
        qs q ++ firedItems now nr specs q := by
  intro specs
  induction specs with
  | nil => intro nr qs _ q; simp [tickSpecs, firedItems]
  | cons sp rest ih =>
    intro nr qs hnd q
    obtain ⟨hhd, htl⟩ : sp.name ∉ rest.map SchedSpec.name ∧
        (rest.map SchedSpec.name).Nodup := by simpa using hnd
    rw [firedItems_cons]
    by_cases hdue : nr sp.name ≤ now
    · simp only [tickSpecs, if_pos hdue]
      rw [ih _ _ htl q]
      have hcong : firedItems now
          (fun n => if n = sp.name then now + sp.interval else nr n) rest q =
          firedItems now nr rest q := by
        apply firedItems_congr
        intro sp' hm
        have hne : sp'.name ≠ sp.name :=
          fun habs => hhd (habs ▸ List.mem_map_of_mem SchedSpec.name hm)
        simp [hne]
      rw [hcong]
      by_cases hq : q = (popQueueName sp.kwargs).1
      · rw [if_pos hq, if_pos ⟨hdue, hq.symm⟩, List.append_assoc]
      · rw [if_neg hq, if_neg fun hab => hq hab.2.symm]
        rfl
    · simp only [tickSpecs, if_neg hdue]
      rw [ih _ _ htl q, if_neg fun hab => hdue hab.1]
      rfl

theorem tickSpecs_specs (now : Int) :
    ∀ (specs : List SchedSpec) (nr : String → Int)
      (qs : String → List SchedItem),
      (specs.map SchedSpec.name).Nodup →
      (tickSpecs now specs nr qs).1 =
        specs.map fun sp =>
          if nr sp.name ≤ now
          then { sp with kwargs := (popQueueName sp.kwargs).2 } else sp := by
  intro specs
  induction specs with
  | nil => intro nr qs _; rfl
  | cons sp rest ih =>
    intro nr qs hnd
    obtain ⟨hhd, htl⟩ : sp.name ∉ rest.map SchedSpec.name ∧
        (rest.map SchedSpec.name).Nodup := by simpa using hnd
    by_cases hdue : nr sp.name ≤ now
    · simp only [tickSpecs, if_pos hdue, List.map_cons]
      rw [ih _ _ htl]
      congr 1
      apply List.map_congr_left
      intro sp' hm
      have hne : sp'.name ≠ sp.name :=
        fun habs => hhd (habs ▸ List.mem_map_of_mem SchedSpec.name hm)
      simp [hne]
    · simp only [tickSpecs, if_neg hdue, List.map_cons]
      rw [ih _ _ htl]

theorem tickSpecs_nextRun_mem (now : Int) :
    ∀ (specs : List SchedSpec) (nr : String → Int)
      (qs : String → List SchedItem),
      (specs.map SchedSpec.name).Nodup →
      ∀ sp ∈ specs, (tickSpecs now specs nr qs).2.1 sp.name =
        if nr sp.name ≤ now then now + sp.interval else nr sp.name := by
  intro specs
  induction specs with
  | nil => intro nr qs _ sp hm; cases hm
  | cons sp0 rest ih =>
    intro nr qs hnd sp hm
    obtain ⟨hhd, htl⟩ : sp0.name ∉ rest.map SchedSpec.name ∧
        (rest.map SchedSpec.name).Nodup := by simpa using hnd
    rcases List.mem_cons.mp hm with heq | hmem
    · subst heq
      by_cases hdue : nr sp.name ≤ now
      · simp only [tickSpecs, if_pos hdue]
        rw [tickSpecs_nextRun_not_mem now rest _ _ sp.name hhd]
        simp [hdue]
      · simp only [tickSpecs, if_neg hdue]
        rw [tickSpecs_nextRun_not_mem now rest _ _ sp.name hhd]
    · have hne : sp.name ≠ sp0.name :=
        fun habs => hhd (habs ▸ List.mem_map_of_mem SchedSpec.name hmem)
      by_cases hdue : nr sp0.name ≤ now
      · simp only [tickSpecs, if_pos hdue]
        rw [ih _ _ htl sp hmem]
        simp [hne]
      · simp only [tickSpecs, if_neg hdue]
        exact ih _ _ htl sp hmem

/-- C7 (amended): each recurring spec's first run time is startup time plus
five seconds; on each tick, every due spec is enqueued exactly once, directly
— with no deduplication check and no registry marking (the pending registry
is untouched) — onto the queue named by the `queue_name` value currently in
its stored kwargs (default `general`; the key is popped from the shared
kwargs dict at fire time, so later fires fall back to `general`); its
`next_run` becomes the current tick time plus the interval (missed ticks are
not caught up); and specs not yet due are left untouched. -/
theorem scheduler_tick_behavior (now t0 : Int) (st : SchedState)
    (hnd : (st.specs.map SchedSpec.name).Nodup) :
    (∀ sp : SchedSpec, initNextRun t0 sp.name = t0 + 5) ∧
    (schedTick now st).pending = st.pending ∧
    (∀ q, (schedTick now st).queues q =
      st.queues q ++ firedItems now st.nextRun st.specs q) ∧
    (schedTick now st).specs =
      st.specs.map (fun sp =>
        if st.nextRun sp.name ≤ now
        then { sp with kwargs := (popQueueName sp.kwargs).2 } else sp) ∧
    (∀ sp ∈ st.specs, (schedTick now st).nextRun sp.name =
      if st.nextRun sp.name ≤ now then now + sp.interval
      else st.nextRun sp.name) ∧
    (∀ n, n ∉ st.specs.map SchedSpec.name →
      (schedTick now st).nextRun n = st.nextRun n) := by
  refine ⟨fun _ => rfl, rfl, ?_, ?_, ?_, ?_⟩
  · exact tickSpecs_queues now st.specs st.nextRun st.queues hnd
  · exact tickSpecs_specs now st.specs st.nextRun st.queues hnd
  · exact tickSpecs_nextRun_mem now st.specs st.nextRun st.queues hnd
  · exact fun n hn => tickSpecs_nextRun_not_mem now st.specs st.nextRun
      st.queues n hn

/-- The concrete scheduler state of the counterexample: one recurring spec,
declared for the `embedding` queue, first due at `initNextRun 5 = 10`. -/
def stA : SchedState :=
  { specs := [⟨"core.tasks.sync", 10, [],
      [("queue_name", PyVal.pystr "embedding")]⟩],
    nextRun := initNextRun 5,
    queues := fun _ => [],
    pending := [] }

/-- Counterexample to C7 as stated, on `stA` with ticks at times 13 and 23:
the first fire sets `next_run` to `13 + 10 = 23`, not one interval past the
last scheduled point `10 + 10 = 20`; the second fire lands on the `general`
queue although the spec declared `embedding` (the first fire's `pop` removed
the key from the shared kwargs dict); and the pending registry is never
consulted or marked — the enqueued item's fingerprint is absent from it both
before and after the task is enqueued. -/
theorem scheduler_tick_cex :
    (schedTick 13 stA).queues "embedding" = [("core.tasks.sync", [], [])] ∧
    (schedTick 13 stA).nextRun "core.tasks.sync" = 23 ∧
    ¬ ((schedTick 13 stA).nextRun "core.tasks.sync" = 10 + 10) ∧
    (schedTick 23 (schedTick 13 stA)).queues "general" =
      [("core.tasks.sync", [], [])] ∧
    (schedTick 23 (schedTick 13 stA)).queues "embedding" =
      [("core.tasks.sync", [], [])] ∧
    (schedTick 23 (schedTick 13 stA)).pending = [] ∧
    schedItemKey hTest ("core.tasks.sync", [], []) ∉
      (schedTick 13 stA).pending := by
  refine ⟨?_, ?_, ?_, ?_, ?_, rfl, ?_⟩ <;> decide

/-- Witness for the amended C7 at the concrete state `stA`, tick time 13. -/
theorem scheduler_tick_behavior_witness :
    (schedTick 13 stA).pending = stA.pending ∧
    (schedTick 13 stA).queues "embedding" =
      stA.queues "embedding" ++ firedItems 13 stA.nextRun stA.specs
        "embedding" := by
  obtain ⟨-, hp, hq, -, -, -⟩ := scheduler_tick_behavior 13 5 stA (by decide)
  exact ⟨hp, hq "embedding"⟩

end Speck
